import Mathlib

/-!
Verification of the keta-chain ledger core (`src/keeta-integration.js`,
`src/production-app.js`).

The JavaScript source is shallowly embedded as executable Lean functions:

* `CryptoUtils.createHash(data)` is `sha256(JSON.stringify(data))` in hex;
  we implement SHA-256 concretely (FIPS 180-4) over byte lists so that the
  embedding computes the very hashes the program computes (all inputs that
  occur here are ASCII, so UTF-8 encoding is the identity byte map).
* `JSON.stringify` is embedded per call site: the objects serialized by the
  program have a fixed key insertion order, which `JSON.stringify` preserves.
* JavaScript ambient effects (`Date.now()`, `uuidv4()`) are threaded as
  explicit parameters; mutation is modelled by returning the new state, and a
  `throw` by `Except.error` carrying the thrown message (for methods that
  mutate, by an `Option String × State` pair: the error, if any, and the
  state after the call).
-/

namespace KetaChain

/-! ## SHA-256 (FIPS 180-4), over byte lists, hex output -/

def pow32 : Nat := 4294967296

/-- Right-rotation of a 32-bit word. -/
def rotr32 (n x : Nat) : Nat :=
  (x >>> n) ||| ((x <<< (32 - n)) % pow32)

/-- The 64 SHA-256 round constants. -/
def kConst : List Nat :=
  [1116352408, 1899447441, 3049323471, 3921009573, 961987163, 1508970993,
   2453635748, 2870763221, 3624381080, 310598401, 607225278, 1426881987,
   1925078388, 2162078206, 2614888103, 3248222580, 3835390401, 4022224774,
   264347078, 604807628, 770255983, 1249150122, 1555081692, 1996064986,
   2554220882, 2821834349, 2952996808, 3210313671, 3336571891, 3584528711,
   113926993, 338241895, 666307205, 773529912, 1294757372, 1396182291,
   1695183700, 1986661051, 2177026350, 2456956037, 2730485921, 2820302411,
   3259730800, 3345764771, 3516065817, 3600352804, 4094571909, 275423344,
   430227734, 506948616, 659060556, 883997877, 958139571, 1322822218,
   1537002063, 1747873779, 1955562222, 2024104815, 2227730452, 2361852424,
   2428436474, 2756734187, 3204031479, 3329325298]

/-- SHA-256 working state: the eight 32-bit registers. -/
structure Hs where
  a : Nat
  b : Nat
  c : Nat
  d : Nat
  e : Nat
  f : Nat
  g : Nat
  h : Nat

/-- Extend a 16-word message block with `n` further schedule words. -/
def extendSchedule : List Nat → Nat → List Nat
  | ws, 0 => ws
  | ws, n + 1 =>
    let i := ws.length
    let w15 := ws.getD (i - 15) 0
    let w2 := ws.getD (i - 2) 0
    let s0 := (rotr32 7 w15) ^^^ (rotr32 18 w15) ^^^ (w15 >>> 3)
    let s1 := (rotr32 17 w2) ^^^ (rotr32 19 w2) ^^^ (w2 >>> 10)
    extendSchedule
      (ws ++ [(ws.getD (i - 16) 0 + s0 + ws.getD (i - 7) 0 + s1) % pow32]) n

/-- One SHA-256 compression round. -/
def compressRound (s : Hs) (wk : Nat × Nat) : Hs :=
  let bigS1 := (rotr32 6 s.e) ^^^ (rotr32 11 s.e) ^^^ (rotr32 25 s.e)
  let ch := (s.e &&& s.f) ^^^ ((s.e ^^^ 0xffffffff) &&& s.g)
  let temp1 := (s.h + bigS1 + ch + wk.2 + wk.1) % pow32
  let bigS0 := (rotr32 2 s.a) ^^^ (rotr32 13 s.a) ^^^ (rotr32 22 s.a)
  let maj := (s.a &&& s.b) ^^^ (s.a &&& s.c) ^^^ (s.b &&& s.c)
  let temp2 := (bigS0 + maj) % pow32
  ⟨(temp1 + temp2) % pow32, s.a, s.b, s.c, (s.d + temp1) % pow32, s.e, s.f, s.g⟩

/-- Compress one 16-word chunk into the running hash state. -/
def compressChunk (hv : Hs) (chunkWords : List Nat) : Hs :=
  let ws := extendSchedule chunkWords 48
  let s := (ws.zip kConst).foldl compressRound hv
  ⟨(hv.a + s.a) % pow32, (hv.b + s.b) % pow32, (hv.c + s.c) % pow32,
   (hv.d + s.d) % pow32, (hv.e + s.e) % pow32, (hv.f + s.f) % pow32,
   (hv.g + s.g) % pow32, (hv.h + s.h) % pow32⟩

/-- Big-endian bytes of a 32-bit word group: bytes to words. -/
def bytesToWords : List Nat → List Nat
  | b0 :: b1 :: b2 :: b3 :: rest =>
    (b0 * 16777216 + b1 * 65536 + b2 * 256 + b3) :: bytesToWords rest
  | _ => []

/-- 64-bit big-endian byte encoding of the message bit length. -/
def be8 (n : Nat) : List Nat :=
  [(n >>> 56) % 256, (n >>> 48) % 256, (n >>> 40) % 256, (n >>> 32) % 256,
   (n >>> 24) % 256, (n >>> 16) % 256, (n >>> 8) % 256, n % 256]

/-- SHA-256 padding: `0x80`, zeros to 56 mod 64, then the 64-bit bit length. -/
def sha256Pad (msg : List Nat) : List Nat :=
  let padLen := (119 - msg.length % 64) % 64
  msg ++ 128 :: List.replicate padLen 0 ++ be8 (8 * msg.length)

/-- Split a padded message into 64-byte chunks (fuel-driven for structural
recursion; the fuel is the byte length, an upper bound on the chunk count). -/
def splitChunksAux : Nat → List Nat → List (List Nat)
  | 0, _ => []
  | _, [] => []
  | fuel + 1, l => l.take 64 :: splitChunksAux fuel (l.drop 64)

def splitChunks (l : List Nat) : List (List Nat) :=
  splitChunksAux l.length l

def sha256Init : Hs :=
  ⟨1779033703, 3144134277, 1013904242, 2773480762,
   1359893119, 2600822924, 528734635, 1541459225⟩

/-- The eight digest words of a byte message. -/
def sha256WordsOf (msg : List Nat) : List Nat :=
  let hv := ((splitChunks (sha256Pad msg)).map bytesToWords).foldl compressChunk sha256Init
  [hv.a, hv.b, hv.c, hv.d, hv.e, hv.f, hv.g, hv.h]

def hexDigit (n : Nat) : Char :=
  "0123456789abcdef".data.getD n '0'

/-- Lower-case hex of one 32-bit word (8 nibbles, big-endian). -/
def hexOfWord (w : Nat) : List Char :=
  (List.range 8).map (fun i => hexDigit ((w >>> (28 - 4 * i)) % 16))

/-- `crypto.createHash('sha256').update(s).digest('hex')` for an ASCII string
`s` (every string hashed by this program is ASCII, so UTF-8 is `Char.toNat`). -/
def sha256Hex (s : String) : String :=
  String.mk (((sha256WordsOf (s.data.map Char.toNat)).map hexOfWord).foldr (· ++ ·) [])

/-! ## JSON serialization fragments

`JSON.stringify` on the objects this program hashes: keys appear in property
insertion order; `undefined`-valued keys are omitted; `null` prints as
`null`; the strings involved (hex digests, addresses, ids) contain no
characters needing escapes. -/

/-- Decimal digits of a positive number (fuel-driven). -/
def natDigitsAux : Nat → Nat → List Char
  | 0, _ => []
  | fuel + 1, n =>
    if n = 0 then []
    else natDigitsAux fuel (n / 10) ++ [hexDigit (n % 10)]

/-- Decimal rendering of a `Nat`, as `JSON.stringify` prints a whole number. -/
def natStr (n : Nat) : String :=
  if n = 0 then "0" else String.mk (natDigitsAux (n + 1) n)

/-- A JSON string literal (no escaping needed for the strings that occur). -/
def jsonStrQ (s : String) : String := "\"" ++ s ++ "\""

/-- JavaScript truthiness of a nullable string: `null`/`undefined` and the
empty string are falsy. -/
def truthyOptStr : Option String → Bool
  | none => false
  | some s => !(s.data == [])

def truthyStr (s : String) : Bool := !(s.data == [])

/-- JavaScript truthiness of a nullable number: `null`/`undefined` and `0`
are falsy. -/
def truthyOptInt : Option Int → Bool
  | none => false
  | some n => !(n == 0)

/-! Amounts are JavaScript numbers; they are modelled as exact rationals.
The `Rat` arithmetic of the library is `@[irreducible]`, which blocks
evaluation inside `decide`, so the embedding carries its own (extensionally
identical) rational operations built on `mkRat`, `num` and `den`; the
denominator of a `Rat` is always positive, which makes the comparison forms
below the standard cross-multiplication ones. -/

def ratAdd (a b : Rat) : Rat :=
  mkRat (a.num * b.den + b.num * a.den) (a.den * b.den)

def ratSub (a b : Rat) : Rat :=
  mkRat (a.num * b.den - b.num * a.den) (a.den * b.den)

/-- The JavaScript comparison `a <= b` on amounts. -/
def ratLe (a b : Rat) : Bool :=
  a.num * b.den ≤ b.num * a.den

/-- The JavaScript comparison `a < b` on amounts. -/
def ratLt (a b : Rat) : Bool :=
  a.num * b.den < b.num * a.den

/-- `Math.round(amount * 100) / 100`: round half-up to two decimals —
`⌊(amount · 100) + 1/2⌋ / 100`, written on the numerator and denominator so
that it evaluates. -/
def jsRound2 (q : Rat) : Rat :=
  mkRat (Int.fdiv (200 * q.num + q.den) (2 * q.den)) 100

/-- The number of cents of an amount whose denominator divides 100 — every
amount stored by the program comes out of `jsRound2`, so this is exact. -/
def ratCents (q : Rat) : Int := q.num * (100 / (q.den : Int))

/-- How `JSON.stringify` prints a non-negative amount of `c` cents:
no decimal point for whole values, no trailing zero otherwise. -/
def renderCentsNat (c : Nat) : String :=
  if c % 100 = 0 then natStr (c / 100)
  else if c % 10 = 0 then natStr (c / 100) ++ "." ++ String.mk [hexDigit (c / 10 % 10)]
  else natStr (c / 100) ++ "." ++ String.mk [hexDigit (c / 10 % 10), hexDigit (c % 10)]

/-- How `JSON.stringify` prints a transaction amount. -/
def renderAmount (q : Rat) : String :=
  if ratCents q < 0 then "-" ++ renderCentsNat (ratCents q).natAbs
  else renderCentsNat (ratCents q).natAbs

/-! ## Transaction (`keeta-integration.js` lines 535–608) -/

/-- A `Transaction` record: `id` is the `uuidv4()` value, `fromAddress` is
nullable (`null` marks a mining-reward mint), `data` is carried as the JSON
text of the frozen payload (`\x7b\x7d` for the default `{}`), `signature` is
nullable. -/
structure Transaction where
  id : String
  fromAddress : Option String
  toAddress : String
  amount : Rat
  timestamp : Nat
  data : String
  signature : Option String
deriving DecidableEq

/-- `JSON.stringify` of a `Transaction`, keys in constructor insertion order:
id, fromAddress, toAddress, amount, timestamp, data, signature. -/
def serializeTransaction (tx : Transaction) : String :=
  "\x7b\"id\":" ++ jsonStrQ tx.id ++
  ",\"fromAddress\":" ++ (match tx.fromAddress with | none => "null" | some f => jsonStrQ f) ++
  ",\"toAddress\":" ++ jsonStrQ tx.toAddress ++
  ",\"amount\":" ++ renderAmount tx.amount ++
  ",\"timestamp\":" ++ natStr tx.timestamp ++
  ",\"data\":" ++ tx.data ++
  ",\"signature\":" ++ (match tx.signature with | none => "null" | some s => jsonStrQ s) ++
  "\x7d"

/-- `CryptoUtils.validateAddress`: `'K'` prefix, length 51, and the checksum
(first 8 hex chars of sha256 of version+hash part) must recompute. -/
def validateAddress (address : String) : Bool :=
  if !(address.data.head? == some 'K') then false
  else if !(address.data.length == 51) then false
  else
    let version := (address.data.drop 1).take 2
    let hashPart := (address.data.drop 3).take 40
    let checksum := (address.data.drop 43).take 8
    let expected := (sha256Hex (String.mk (version ++ hashPart))).data.take 8
    checksum == expected

/-- The `Transaction` constructor: validates the recipient address, a truthy
sender address, and positivity of the amount, then rounds the amount to two
decimals and freezes the payload. `id` is the `uuidv4()` draw and `now` the
`Date.now()` instant, threaded explicitly. -/
def Transaction.create (fromAddress : Option String) (toAddress : String)
    (amount : Rat) (dataJson : String) (id : String) (now : Nat) :
    Except String Transaction :=
  if !(validateAddress toAddress) then .error "Invalid recipient address"
  else if truthyOptStr fromAddress && !(validateAddress (fromAddress.getD "")) then
    .error "Invalid sender address"
  else if ratLe amount 0 then .error "Invalid transaction amount"
  else .ok ⟨id, fromAddress, toAddress, jsRound2 amount, now, dataJson, none⟩

/-- `Transaction.isValid()`: a mint (`fromAddress === null`) is always valid;
otherwise a falsy signature throws `'Transaction is not signed'`; otherwise
the method returns `this.signature && this.signature.length > 0`, which is
`true` at that point (nothing in the subsequent `try` block can throw). -/
def Transaction.isValid (tx : Transaction) : Except String Bool :=
  if tx.fromAddress = none then .ok true
  else if !(truthyOptStr tx.signature) then .error "Transaction is not signed"
  else .ok true

/-! ## Block (`keeta-integration.js` lines 491–533) -/

structure Block where
  index : Nat
  timestamp : Nat
  transactions : List Transaction
  previousHash : String
  hash : String
  nonce : Nat
deriving DecidableEq

def joinComma : List String → String
  | [] => ""
  | [s] => s
  | s :: rest => s ++ "," ++ joinComma rest

/-- The serialization hashed by `Block.calculateHash`: the object literal
`{index, timestamp, transactions, previousHash, nonce}` in that key order.
`nonce? = none` models the constructor-time call, where `this.nonce` is
still `undefined` and `JSON.stringify` therefore omits the key. -/
def serializeBlockFields (index timestamp : Nat) (txs : List Transaction)
    (previousHash : String) (nonce? : Option Nat) : String :=
  "\x7b\"index\":" ++ natStr index ++
  ",\"timestamp\":" ++ natStr timestamp ++
  ",\"transactions\":[" ++ joinComma (txs.map serializeTransaction) ++
  "],\"previousHash\":" ++ jsonStrQ previousHash ++
  (match nonce? with | none => "" | some n => ",\"nonce\":" ++ natStr n) ++
  "\x7d"

/-- `CryptoUtils.createHash` applied to the block-field object. -/
def calcBlockHash (index timestamp : Nat) (txs : List Transaction)
    (previousHash : String) (nonce? : Option Nat) : String :=
  sha256Hex (serializeBlockFields index timestamp txs previousHash nonce?)

/-- The `Block` constructor: assigns index, timestamp, transactions and
previousHash, then computes `this.hash = this.calculateHash()` — at which
point `this.nonce` is not yet assigned — and only then sets `this.nonce = 0`. -/
def Block.create (index : Nat) (transactions : List Transaction)
    (previousHash : String) (timestamp : Nat) : Block :=
  ⟨index, timestamp, transactions, previousHash,
   calcBlockHash index timestamp transactions previousHash none, 0⟩

/-- `Block.calculateHash()` after construction: all five fields, nonce
included. -/
def Block.calculateHash (b : Block) : String :=
  calcBlockHash b.index b.timestamp b.transactions b.previousHash (some b.nonce)

/-- `Number.MAX_SAFE_INTEGER`. -/
def maxSafeInteger : Nat := 9007199254740991

/-- `this.hash.substring(0, difficulty) === '0'.repeat(difficulty)`. -/
def hashMeetsDifficulty (hash : String) (difficulty : Nat) : Bool :=
  hash.data.take difficulty == List.replicate difficulty '0'

/-- The `mineBlock` loop. Each iteration increments the nonce and recomputes
the hash; the source throws `'Mining timeout - nonce exceeded maximum value'`
as soon as the nonce passes `Number.MAX_SAFE_INTEGER`, so the nonces whose
hashes get tested are the starting one through `maxSafeInteger`; the fuel
counts the iterations remaining until that bound. -/
def mineLoop (difficulty index timestamp : Nat) (txs : List Transaction)
    (previousHash : String) (nonce : Nat) (hash : String) (fuel : Nat) :
    Except String (Nat × String) :=
  if hashMeetsDifficulty hash difficulty then .ok (nonce, hash)
  else
    match fuel with
    | 0 => .error "Mining timeout - nonce exceeded maximum value"
    | fuel' + 1 =>
      mineLoop difficulty index timestamp txs previousHash (nonce + 1)
        (calcBlockHash index timestamp txs previousHash (some (nonce + 1))) fuel'

/-- `Block.mineBlock(difficulty)`: runs the nonce search from the block's
current nonce and stored hash, and on success stores the found nonce and
hash. -/
def Block.mineBlock (b : Block) (difficulty : Nat) : Except String Block :=
  match mineLoop difficulty b.index b.timestamp b.transactions b.previousHash
      b.nonce b.hash (maxSafeInteger - b.nonce) with
  | .error e => .error e
  | .ok (n, h) => .ok { b with nonce := n, hash := h }

/-- The loop body of `hasValidTransactions`: `isValid` may throw, and the
throw propagates (there is no try/catch in `hasValidTransactions`). -/
def validateTxList : List Transaction → Except String Bool
  | [] => .ok true
  | tx :: rest =>
    match tx.isValid with
    | .error e => .error e
    | .ok true => validateTxList rest
    | .ok false => .ok false

def Block.hasValidTransactions (b : Block) : Except String Bool :=
  validateTxList b.transactions

/-- `JSON.stringify` of a whole `Block` (used by `isChainValid` for the
genesis comparison): keys in constructor insertion order — index, timestamp,
transactions, previousHash, hash, nonce. -/
def stringifyBlock (b : Block) : String :=
  "\x7b\"index\":" ++ natStr b.index ++
  ",\"timestamp\":" ++ natStr b.timestamp ++
  ",\"transactions\":[" ++ joinComma (b.transactions.map serializeTransaction) ++
  "],\"previousHash\":" ++ jsonStrQ b.previousHash ++
  ",\"hash\":" ++ jsonStrQ b.hash ++
  ",\"nonce\":" ++ natStr b.nonce ++
  "\x7d"

/-! ## Blockchain (`keeta-integration.js` lines 611–798) -/

structure Blockchain where
  chain : List Block
  difficulty : Nat
  pendingTransactions : List Transaction
  miningReward : Rat
  maxTransactionsPerBlock : Nat
  isInitialized : Bool
deriving DecidableEq

/-- The `Blockchain` constructor: the chain starts *empty*; the genesis block
only appears once `initialize()` runs. -/
def Blockchain.new : Blockchain :=
  ⟨[], 4, [], 10, 10000, false⟩

/-- `createGenesisBlock()`: `new Block(0, [], '0')` — the timestamp defaults
to `Date.now()`, threaded here as `now`. -/
def createGenesisBlock (now : Nat) : Block :=
  Block.create 0 [] "0" now

/-- The in-memory initialization path of `initialize()` (no saved chain in
the store, or a store failure): install a fresh genesis block. -/
def Blockchain.initInMemory (bc : Blockchain) (now : Nat) : Blockchain :=
  { bc with chain := [createGenesisBlock now], isInitialized := true }

/-- `getBalance(address)`: full scan; each transaction first subtracts when
`fromAddress === address`, then adds when `toAddress === address`. -/
def Blockchain.getBalance (bc : Blockchain) (address : String) : Rat :=
  bc.chain.foldl
    (fun bal b =>
      b.transactions.foldl
        (fun bal tx =>
          let bal := if tx.fromAddress = some address then ratSub bal tx.amount else bal
          if tx.toAddress = address then ratAdd bal tx.amount else bal)
        bal)
    0

/-- `addTransaction(transaction)`: address-presence check, `isValid()` (whose
throw propagates), positivity, then sender balance; the push onto the pending
pool happens only if every check passed. Returns the thrown message, if any,
and the state after the call. -/
def Blockchain.addTransaction (bc : Blockchain) (tx : Transaction) :
    Option String × Blockchain :=
  if !(truthyOptStr tx.fromAddress) || !(truthyStr tx.toAddress) then
    (some "Transaction must include from and to address", bc)
  else
    match tx.isValid with
    | .error e => (some e, bc)
    | .ok false => (some "Cannot add invalid transaction to chain", bc)
    | .ok true =>
      if ratLe tx.amount 0 then
        (some "Transaction amount should be higher than 0", bc)
      else if ratLt (bc.getBalance (tx.fromAddress.getD "")) tx.amount then
        (some "Not enough balance", bc)
      else
        (none, { bc with pendingTransactions := bc.pendingTransactions ++ [tx] })

/-- `minePendingTransactions(miningRewardAddress)`: builds the reward
transaction (its constructor validates the reward address and can throw),
takes the first `maxTransactionsPerBlock` pool entries plus the reward
transaction, builds a block on the current tip, mines it, appends it, and
drops the taken pool entries. `rewardTxId`/`txNow`/`blockNow` thread the
`uuidv4()` and the two `Date.now()` draws. On an empty chain,
`getLatestBlock()` is `undefined` and reading `.hash` throws a TypeError. -/
def Blockchain.minePendingTransactions (bc : Blockchain)
    (miningRewardAddress : String) (rewardTxId : String) (txNow blockNow : Nat) :
    Option String × Blockchain :=
  match Transaction.create none miningRewardAddress bc.miningReward "\x7b\x7d"
      rewardTxId txNow with
  | .error e => (some e, bc)
  | .ok rewardTx =>
    match bc.chain.getLast? with
    | none =>
      (some "TypeError: Cannot read properties of undefined (reading 'hash')", bc)
    | some tip =>
      match (Block.create bc.chain.length
          (bc.pendingTransactions.take bc.maxTransactionsPerBlock ++ [rewardTx])
          tip.hash blockNow).mineBlock bc.difficulty with
      | .error e => (some e, bc)
      | .ok mined =>
        (none, { bc with
          chain := bc.chain ++ [mined],
          pendingTransactions :=
            bc.pendingTransactions.drop bc.maxTransactionsPerBlock })

/-- The `for` loop of `isChainValid` from index 1: link integrity, then
`hasValidTransactions()` (whose throw propagates — there is no try/catch
anywhere on this path), then hash recomputation. -/
def chainLinkLoop : Block → List Block → Except String Bool
  | _, [] => .ok true
  | prev, cur :: rest =>
    if !(prev.hash == cur.previousHash) then .ok false
    else
      match cur.hasValidTransactions with
      | .error e => .error e
      | .ok false => .ok false
      | .ok true =>
        if !(cur.hash == cur.calculateHash) then .ok false
        else chainLinkLoop cur rest

/-- `isChainValid()`: stringify-compares `chain[0]` against a genesis block
freshly constructed *now* (so carrying the current `Date.now()` timestamp),
then runs the link loop. An empty chain fails the genesis comparison
(`JSON.stringify(this.chain[0])` is `undefined` there). -/
def Blockchain.isChainValid (bc : Blockchain) (now : Nat) : Except String Bool :=
  match bc.chain with
  | [] => .ok false
  | c0 :: rest =>
    if !(stringifyBlock (createGenesisBlock now) == stringifyBlock c0) then .ok false
    else chainLinkLoop c0 rest

/-! ## Peer node gossip layer (`production-app.js` lines 793–931) -/

/-- A `BLOCK` gossip payload as it arrives from `JSON.parse`: every field may
be absent or `null`; `index`/`timestamp` are numbers when present. -/
structure BlockMsg where
  index : Option Int
  hash : Option String
  previousHash : Option String
  transactions : Option (List Transaction)
  timestamp : Option Int
deriving DecidableEq

/-- `KeetaNode.isValidBlock(block)`: the truthiness conjunction
`block && block.index && block.hash && block.previousHash &&
block.transactions && block.timestamp` (an array is always truthy, a number
is falsy at 0, a string is falsy when empty). -/
def KeetaNode.isValidBlock (b : BlockMsg) : Bool :=
  truthyOptInt b.index && truthyOptStr b.hash && truthyOptStr b.previousHash &&
    b.transactions.isSome && truthyOptInt b.timestamp

/-- `broadcastToPeers(message, excludePeerId)`: every connected peer except
the excluded one receives the message. -/
def broadcastToPeers (connectedPeers : List String) (excludePeerId : Option String) :
    List String :=
  connectedPeers.filter (fun p => !(some p == excludePeerId))

/-- `KeetaNode.handleBlock(peerId, blockData)`: on a shape-valid block whose
index equals the current chain length, push it and rebroadcast to everyone
but the sender; in every other case the chain is untouched and nothing is
sent. Returns the new chain and the list of peers the block was relayed to. -/
def KeetaNode.handleBlock (chain : List BlockMsg) (blockData : BlockMsg)
    (connectedPeers : List String) (senderPeerId : String) :
    List BlockMsg × List String :=
  if KeetaNode.isValidBlock blockData then
    if blockData.index = some (chain.length : Int) then
      (chain ++ [blockData], broadcastToPeers connectedPeers (some senderPeerId))
    else (chain, [])
  else (chain, [])

/-- `KeetaNode.replaceChain(newChain)`: wholesale swap exactly when the
candidate is strictly longer; no inspection of the candidate's contents (the
length comparison is the only read, so the definition is polymorphic in the
entry type, as the untyped source is). -/
def KeetaNode.replaceChain {α : Type} (chain newChain : List α) : List α :=
  if newChain.length > chain.length then newChain else chain

/-- `KeetaNode.handleChainResponse(peerId, data)`: sync when the *claimed*
height exceeds the local length, by calling `replaceChain`. -/
def KeetaNode.handleChainResponse {α : Type} (chain : List α)
    (respChain : List α) (respHeight : Int) : List α :=
  if respHeight > (chain.length : Int) then KeetaNode.replaceChain chain respChain
  else chain

/-! ## Concrete states used by the scenario theorems -/

/-- A checksum-valid address (prefix `K`, version `00`, 40 hex chars, and the
first 8 hex chars of the sha256 of version+hash as checksum). -/
def addrA : String := "K00abababababababababababababababababababab61134efc"

/-- Scenario ledger: a genesis-only chain created at `Date.now() = 1000`,
with difficulty 1 and the default mining reward 10. -/
def bc0 : Blockchain :=
  { chain := [createGenesisBlock 1000], difficulty := 1,
    pendingTransactions := [], miningReward := 10,
    maxTransactionsPerBlock := 10000, isInitialized := true }

/-- A genesis-shaped block whose construction-time hash happens to start with
a `'0'` hex character, so that `mineBlock(1)` returns without a single loop
iteration. -/
def b1007 : Block := createGenesisBlock 1007

deriving instance DecidableEq for Except

/-- The per-transaction condition under which `isValid()` returns normally:
a mint, or a truthy (present, non-empty) signature. -/
def txOkB (tx : Transaction) : Bool :=
  (tx.fromAddress == none) || truthyOptStr tx.signature

/-- A block as the `Block` constructor builds it at `Date.now() = 1000`. -/
def b1000 : Block := Block.create 0 [] "0" 1000

/-- An arbitrary freshly constructed block, mined at difficulty 0 by the
witnesses (difficulty 0 makes the empty target match immediately). -/
def b42 : Block := Block.create 7 [] "pq" 42

/-- A non-mint transaction that was never signed. -/
def txUnsigned : Transaction :=
  ⟨"t1", some "Ksender", "Krecv", 5, 1000, "\x7b\x7d", none⟩

/-- A block holding the unsigned non-mint transaction. -/
def blockUnsigned : Block := ⟨1, 1000, [txUnsigned], "aa", "bb", 0⟩

/-- A genesis-shaped chain entry (block literals: hashes play no role in the
length-only replacement policy). -/
def genLit : Block := ⟨0, 3, [], "0", "g0", 0⟩

def badBlockA : Block := ⟨0, 5, [], "xx", "hashA", 0⟩

def badBlockB : Block := ⟨1, 6, [], "yy", "hashB", 0⟩

/-- Rogue candidate-chain entries for the genesis-invariant counterexample:
the head does not have the canonical genesis shape. -/
def rogueA : Block := ⟨0, 7, [], "xx", "h1", 0⟩

def rogueB : Block := ⟨1, 8, [], "h1", "h2", 0⟩

/-- A local gossip chain of one entry. -/
def chainY : List BlockMsg := [⟨some 9, some "g", some "0", some [], some 3⟩]

/-- An incoming block whose five shape fields are all non-null, but whose
timestamp is the (falsy) number 0. -/
def msgT0 : BlockMsg := ⟨some 1, some "aa", some "bb", some ([] : List Transaction), some 0⟩

/-! ## Theorems -/

/-- FIPS 180-4 test vector: digest of `"abc"`. -/
theorem sha256Hex_abc :
    sha256Hex "abc" = "ba7816bf8f01cfea414140de5dae2223b00361a396177a9cb410ff61f20015ad" := by
  decide

/-- Test vector: digest of the empty string. -/
theorem sha256Hex_empty :
    sha256Hex "" = "e3b0c44298fc1c149afbf4c8996fb92427ae41e4649b934ca495991b7852b855" := by
  decide

/-- Unfolding `validateTxList`: the loop returns `true` when every
transaction is a mint or carries a truthy signature, and otherwise the
first offending transaction's `'Transaction is not signed'` throw
propagates; `.ok false` is unreachable. -/
theorem validateTxList_eq (txs : List Transaction) :
    validateTxList txs =
      if txs.all txOkB then .ok true else .error "Transaction is not signed" := by
  induction txs with
  | nil => rfl
  | cons tx rest ih =>
    by_cases hf : tx.fromAddress = none
    · simp [validateTxList, Transaction.isValid, txOkB, hf, ih, List.all_cons]
    · by_cases hs : truthyOptStr tx.signature = true
      · simp [validateTxList, Transaction.isValid, txOkB, hf, hs, ih, List.all_cons]
      · simp only [Bool.not_eq_true] at hs
        simp [validateTxList, Transaction.isValid, txOkB, hf, hs, List.all_cons]

/-- A normal return of the mining loop carries a hash meeting the difficulty
target, and that hash is either the untouched starting hash (no iteration ran)
or the recomputed content hash at the returned nonce. -/
theorem mineLoop_ok_spec (d ix ts : Nat) (txs : List Transaction) (ph : String) :
    ∀ (fuel nonce : Nat) (hash : String) (n : Nat) (h : String),
      mineLoop d ix ts txs ph nonce hash fuel = .ok (n, h) →
      hashMeetsDifficulty h d = true ∧
      ((n = nonce ∧ h = hash) ∨ h = calcBlockHash ix ts txs ph (some n)) := by
  intro fuel
  induction fuel with
  | zero =>
    intro nonce hash n h hE
    rw [mineLoop] at hE
    split at hE
    · rename_i hm
      cases hE
      exact ⟨hm, Or.inl ⟨rfl, rfl⟩⟩
    · exact Except.noConfusion hE
  | succ fuel ih =>
    intro nonce hash n h hE
    rw [mineLoop] at hE
    split at hE
    · rename_i hm
      cases hE
      exact ⟨hm, Or.inl ⟨rfl, rfl⟩⟩
    · rcases ih (nonce + 1) (calcBlockHash ix ts txs ph (some (nonce + 1))) n h hE with
        ⟨hm, ⟨hn, hh⟩ | hh⟩
      · subst hn
        exact ⟨hm, Or.inr hh⟩
      · exact ⟨hm, Or.inr hh⟩

/-- The only message the mining loop can throw is the nonce-overflow one. -/
theorem mineLoop_error_spec (d ix ts : Nat) (txs : List Transaction) (ph : String) :
    ∀ (fuel nonce : Nat) (hash : String) (e : String),
      mineLoop d ix ts txs ph nonce hash fuel = .error e →
      e = "Mining timeout - nonce exceeded maximum value" := by
  intro fuel
  induction fuel with
  | zero =>
    intro nonce hash e hE
    rw [mineLoop] at hE
    split at hE
    · exact Except.noConfusion hE
    · cases hE; rfl
  | succ fuel ih =>
    intro nonce hash e hE
    rw [mineLoop] at hE
    split at hE
    · exact Except.noConfusion hE
    · exact ih _ _ _ hE

/-- The mining loop always returns: a normal result or the overflow throw. -/
theorem mineLoop_total (d ix ts : Nat) (txs : List Transaction) (ph : String) :
    ∀ (fuel nonce : Nat) (hash : String),
      (∃ p, mineLoop d ix ts txs ph nonce hash fuel = .ok p) ∨
      mineLoop d ix ts txs ph nonce hash fuel =
        .error "Mining timeout - nonce exceeded maximum value" := by
  intro fuel
  induction fuel with
  | zero =>
    intro nonce hash
    by_cases hm : hashMeetsDifficulty hash d = true
    · exact Or.inl ⟨(nonce, hash), by rw [mineLoop, if_pos hm]⟩
    · rw [mineLoop, if_neg hm]
      exact Or.inr rfl
  | succ fuel ih =>
    intro nonce hash
    by_cases hm : hashMeetsDifficulty hash d = true
    · exact Or.inl ⟨(nonce, hash), by rw [mineLoop, if_pos hm]⟩
    · rw [mineLoop, if_neg hm]
      exact ih _ _

/-- A normal `mineBlock` return leaves all fields but `nonce` and `hash`
intact, the final hash meets the target, and the block is either returned
untouched or carries the recomputed content hash at its final nonce. -/
theorem mineBlock_ok_spec (d : Nat) (b b' : Block) (hE : b.mineBlock d = .ok b') :
    hashMeetsDifficulty b'.hash d = true ∧
    b'.index = b.index ∧ b'.timestamp = b.timestamp ∧
    b'.transactions = b.transactions ∧ b'.previousHash = b.previousHash ∧
    (b' = b ∨ b'.hash = b'.calculateHash) := by
  unfold Block.mineBlock at hE
  cases hL : mineLoop d b.index b.timestamp b.transactions b.previousHash
      b.nonce b.hash (maxSafeInteger - b.nonce) with
  | error e => rw [hL] at hE; exact Except.noConfusion hE
  | ok p =>
    obtain ⟨n, hsh⟩ := p
    rw [hL] at hE
    cases hE
    rcases mineLoop_ok_spec d b.index b.timestamp b.transactions b.previousHash
        _ _ _ _ _ hL with ⟨hm, ⟨hn, hh⟩ | hh⟩
    · subst hn; subst hh
      exact ⟨hm, rfl, rfl, rfl, rfl, Or.inl rfl⟩
    · subst hh
      exact ⟨hm, rfl, rfl, rfl, rfl, Or.inr rfl⟩

/-- `mineBlock` errors only with the overflow message. -/
theorem mineBlock_error_spec (d : Nat) (b : Block) (e : String)
    (hE : b.mineBlock d = .error e) :
    e = "Mining timeout - nonce exceeded maximum value" := by
  unfold Block.mineBlock at hE
  cases hL : mineLoop d b.index b.timestamp b.transactions b.previousHash
      b.nonce b.hash (maxSafeInteger - b.nonce) with
  | error e' =>
    rw [hL] at hE
    cases hE
    exact mineLoop_error_spec d b.index b.timestamp b.transactions b.previousHash
      _ _ _ _ hL
  | ok p => rw [hL] at hE; exact Except.noConfusion hE

/-- `mineBlock` always returns: normally, or with the overflow throw. -/
theorem mineBlock_total (d : Nat) (b : Block) :
    (∃ b', b.mineBlock d = .ok b') ∨
    b.mineBlock d = .error "Mining timeout - nonce exceeded maximum value" := by
  unfold Block.mineBlock
  rcases mineLoop_total d b.index b.timestamp b.transactions b.previousHash
      (maxSafeInteger - b.nonce) b.nonce b.hash with ⟨⟨n, hsh⟩, hp⟩ | hp
  · rw [hp]; exact Or.inl ⟨_, rfl⟩
  · rw [hp]; exact Or.inr rfl

/-- A normal return of the `Transaction` constructor stores exactly the given
fields, with the amount rounded and a null signature. -/
theorem create_ok_fields (f : Option String) (dst : String) (amt : Rat)
    (d id : String) (now : Nat) (tx : Transaction)
    (h : Transaction.create f dst amt d id now = .ok tx) :
    tx = ⟨id, f, dst, jsRound2 amt, now, d, none⟩ := by
  unfold Transaction.create at h
  split at h
  · exact Except.noConfusion h
  · split at h
    · exact Except.noConfusion h
    · split at h
      · exact Except.noConfusion h
      · cases h; rfl

/-- Case analysis of `minePendingTransactions`: on a normal return the new
state appends exactly one mined block — chained to the tip, carrying the
first `maxTransactionsPerBlock` pool entries plus the reward transaction —
and drops exactly the taken pool entries; on a throw the state is unchanged. -/
theorem minePending_spec (bc : Blockchain) (addr id : String) (t1 t2 : Nat) :
    ((bc.minePendingTransactions addr id t1 t2).1 = none →
      ∃ tip mined,
        bc.chain.getLast? = some tip ∧
        mined.previousHash = tip.hash ∧
        mined.transactions =
          bc.pendingTransactions.take bc.maxTransactionsPerBlock ++
            [⟨id, none, addr, jsRound2 bc.miningReward, t1, "\x7b\x7d", none⟩] ∧
        (bc.minePendingTransactions addr id t1 t2).2 =
          { bc with
            chain := bc.chain ++ [mined],
            pendingTransactions :=
              bc.pendingTransactions.drop bc.maxTransactionsPerBlock }) ∧
    ((bc.minePendingTransactions addr id t1 t2).1 ≠ none →
      (bc.minePendingTransactions addr id t1 t2).2 = bc) := by
  cases hc : Transaction.create none addr bc.miningReward "\x7b\x7d" id t1 with
  | error e =>
    refine ⟨fun h1 => ?_, fun h2 => ?_⟩
    · simp only [Blockchain.minePendingTransactions, hc] at h1
      exact absurd h1 (by simp)
    · simp only [Blockchain.minePendingTransactions, hc]
  | ok rtx =>
    cases hL : bc.chain.getLast? with
    | none =>
      refine ⟨fun h1 => ?_, fun h2 => ?_⟩
      · simp only [Blockchain.minePendingTransactions, hc, hL] at h1
        exact absurd h1 (by simp)
      · simp only [Blockchain.minePendingTransactions, hc, hL]
    | some tip =>
      cases hm : (Block.create bc.chain.length
          (bc.pendingTransactions.take bc.maxTransactionsPerBlock ++ [rtx])
          tip.hash t2).mineBlock bc.difficulty with
      | error e =>
        refine ⟨fun h1 => ?_, fun h2 => ?_⟩
        · simp only [Blockchain.minePendingTransactions, hc, hL, hm] at h1
          exact absurd h1 (by simp)
        · simp only [Blockchain.minePendingTransactions, hc, hL, hm]
      | ok mined =>
        have hs := mineBlock_ok_spec _ _ _ hm
        have hr := create_ok_fields _ _ _ _ _ _ _ hc
        subst hr
        refine ⟨fun h1 => ?_, fun h2 => ?_⟩
        · refine ⟨tip, mined, rfl, hs.2.2.2.2.1, hs.2.2.2.1, ?_⟩
          simp only [Blockchain.minePendingTransactions, hc, hL, hm]
        · exfalso
          apply h2
          simp only [Blockchain.minePendingTransactions, hc, hL, hm]

/-- A truthy nullable string is not null. -/
theorem truthyOptStr_ne_none {o : Option String} (h : truthyOptStr o = true) :
    o ≠ none := by
  cases o with
  | none => simp [truthyOptStr] at h
  | some s => simp

/-- C3 (amended): for a block containing an unsigned non-mint transaction,
`hasValidTransactions()` does not return the boolean `false` — the
`'Transaction is not signed'` error raised by the per-transaction check
propagates out of the method as an exception; when every transaction is a
mint or carries a non-empty signature, the method returns `true`. -/
theorem hasValidTransactions_unsigned_propagates (b : Block) :
    b.hasValidTransactions =
      if b.transactions.all txOkB then .ok true
      else .error "Transaction is not signed" :=
  validateTxList_eq b.transactions

/-- C3 counterexample: a block with one unsigned non-mint transaction makes
`hasValidTransactions()` throw rather than return the boolean `false`. -/
theorem hasValidTransactions_unsigned_counterexample :
    txUnsigned.fromAddress = some "Ksender" ∧
    txUnsigned.signature = none ∧
    blockUnsigned.hasValidTransactions = .error "Transaction is not signed" ∧
    blockUnsigned.hasValidTransactions.isOk = false := by
  decide

/-- C5: `replaceChain(newChain)` installs the candidate exactly when it is
strictly longer than the local chain and otherwise leaves the local chain
untouched; the definition is polymorphic in the entry type, so no property
of the candidate's content — in particular no integrity validation — can
influence the outcome. -/
theorem replaceChain_length_policy :
    ∀ {α : Type} (chain newChain : List α),
      (newChain.length > chain.length →
        KeetaNode.replaceChain chain newChain = newChain) ∧
      (newChain.length ≤ chain.length →
        KeetaNode.replaceChain chain newChain = chain) := by
  intro α chain newChain
  constructor
  · intro h
    unfold KeetaNode.replaceChain
    rw [if_pos h]
  · intro h
    unfold KeetaNode.replaceChain
    rw [if_neg (by omega)]

/-- C5 witness: a longer candidate made of blocks with dangling links is
installed wholesale; an equal-or-shorter candidate changes nothing. -/
theorem replaceChain_length_policy_witness :
    (([badBlockA, badBlockB] : List Block).length > [genLit].length ∧
      KeetaNode.replaceChain [genLit] [badBlockA, badBlockB] =
        [badBlockA, badBlockB]) ∧
    (([genLit] : List Block).length ≤ [badBlockA, badBlockB].length ∧
      KeetaNode.replaceChain [badBlockA, badBlockB] [genLit] =
        [badBlockA, badBlockB]) :=
  ⟨⟨by decide, (replaceChain_length_policy _ _).1 (by decide)⟩,
   ⟨by decide, (replaceChain_length_policy _ _).2 (by decide)⟩⟩

/-- C8 (amended): an incoming `BLOCK` is appended and relayed to every peer
but the sender exactly when the shape check — JavaScript *truthiness* of the
five fields, so non-null, non-zero numbers and non-empty strings — passes
and its index equals the chain length; in every other case the chain is
unchanged and nothing is rebroadcast. -/
theorem handleBlock_policy (chain : List BlockMsg) (msg : BlockMsg)
    (peers : List String) (sender : String) :
    (KeetaNode.handleBlock chain msg peers sender =
        (chain ++ [msg], broadcastToPeers peers (some sender)) ↔
      (KeetaNode.isValidBlock msg && (msg.index == some (chain.length : Int))) = true) ∧
    (KeetaNode.handleBlock chain msg peers sender = (chain, []) ↔
      (KeetaNode.isValidBlock msg && (msg.index == some (chain.length : Int))) = false) := by
  have hne : ¬(chain ++ [msg] = chain) := by
    intro h
    have := congrArg List.length h
    simp at this
  unfold KeetaNode.handleBlock
  by_cases hv : KeetaNode.isValidBlock msg = true
  · by_cases hi : msg.index = some (chain.length : Int)
    · rw [if_pos hv, if_pos hi]
      simp [hv, hi]
    · rw [if_pos hv, if_neg hi]
      simp [hv, hi, Prod.ext_iff, hne]
  · rw [if_neg hv]
    rw [Bool.not_eq_true] at hv
    simp [hv, Prod.ext_iff, hne]

/-- C8 counterexample: all five shape fields of the incoming block are
non-null and its index equals the chain length, yet the block is dropped and
nothing rebroadcast, because its timestamp `0` is falsy. -/
theorem handleBlock_timestamp_zero_counterexample :
    msgT0.index = some (chainY.length : Int) ∧
    msgT0.hash = some "aa" ∧
    msgT0.previousHash = some "bb" ∧
    msgT0.transactions = some [] ∧
    msgT0.timestamp = some 0 ∧
    KeetaNode.handleBlock chainY msgT0 ["p1", "p2"] "p1" = (chainY, []) := by
  decide

/-- C9 (amended): the canonical genesis (index 0, no transactions,
previousHash `"0"`) heads the chain after initialization, and mining and
gossip block acceptance preserve the chain head; chain replacement does not
(see the counterexample), and the bare constructor's chain is empty until
initialization. -/
theorem genesis_invariant :
    (∀ now : Nat, (createGenesisBlock now).index = 0 ∧
      (createGenesisBlock now).transactions = [] ∧
      (createGenesisBlock now).previousHash = "0") ∧
    (∀ (bc : Blockchain) (now : Nat),
      (bc.initInMemory now).chain = [createGenesisBlock now]) ∧
    (∀ (bc : Blockchain) (addr id : String) (t1 t2 : Nat),
      ((bc.minePendingTransactions addr id t1 t2).2).chain.head? = bc.chain.head?) ∧
    (∀ (chain : List BlockMsg) (msg : BlockMsg) (peers : List String) (sender : String),
      (KeetaNode.handleBlock chain msg peers sender).1.head? = chain.head?) := by
  refine ⟨fun now => ⟨rfl, rfl, rfl⟩, fun bc now => rfl, ?_, ?_⟩
  · intro bc addr id t1 t2
    by_cases h : (bc.minePendingTransactions addr id t1 t2).1 = none
    · obtain ⟨tip, mined, hL, _, _, h2⟩ := (minePending_spec bc addr id t1 t2).1 h
      rw [h2]
      cases hc : bc.chain with
      | nil => rw [hc] at hL; simp at hL
      | cons c0 rest => simp
    · rw [(minePending_spec bc addr id t1 t2).2 h]
  · intro chain msg peers sender
    unfold KeetaNode.handleBlock
    by_cases hv : KeetaNode.isValidBlock msg = true
    · rw [if_pos hv]
      by_cases hi : msg.index = some (chain.length : Int)
      · rw [if_pos hi]
        cases chain with
        | nil =>
          exfalso
          simp [KeetaNode.isValidBlock, hi, truthyOptInt] at hv
        | cons c0 rest => simp
      · rw [if_neg hi]
    · rw [if_neg hv]

/-- C9 counterexample: a longer candidate whose head is not the canonical
genesis block (its previousHash is `"xx"`, not `"0"`) is accepted wholesale
by `replaceChain`, so chain replacement does not preserve the genesis
invariant. -/
theorem replaceChain_genesis_counterexample :
    KeetaNode.replaceChain [genLit] [rogueA, rogueB] = [rogueA, rogueB] ∧
    ((KeetaNode.replaceChain [genLit] [rogueA, rogueB]).head?.map
      Block.previousHash) = some "xx" ∧
    (decide ((KeetaNode.replaceChain [genLit] [rogueA, rogueB]).head?.map
      Block.previousHash = some "0")) = false := by
  decide

/-- C2 (amended): whenever `minePendingTransactions(rewardAddress)` returns
normally — which requires a format-valid reward address and a mining run
that finds a nonce — it appends exactly one block to the chain, chained to
the previous tip, containing the first `maxTransactionsPerBlock` pool
entries in order followed by the reward transaction (null sender, the reward
address as recipient, the rounded mining reward as amount), and the pool
afterwards holds exactly the entries beyond the cap, in order. -/
theorem minePendingTransactions_appends (bc : Blockchain) (addr id : String)
    (t1 t2 : Nat) (h : (bc.minePendingTransactions addr id t1 t2).1 = none) :
    ∃ tip mined,
      bc.chain.getLast? = some tip ∧
      (bc.minePendingTransactions addr id t1 t2).2.chain = bc.chain ++ [mined] ∧
      mined.previousHash = tip.hash ∧
      mined.transactions =
        bc.pendingTransactions.take bc.maxTransactionsPerBlock ++
          [⟨id, none, addr, jsRound2 bc.miningReward, t1, "\x7b\x7d", none⟩] ∧
      (bc.minePendingTransactions addr id t1 t2).2.pendingTransactions =
        bc.pendingTransactions.drop bc.maxTransactionsPerBlock := by
  obtain ⟨tip, mined, hL, hp, ht, h2⟩ := (minePending_spec bc addr id t1 t2).1 h
  exact ⟨tip, mined, hL, by rw [h2], hp, ht, by rw [h2]⟩

set_option maxRecDepth 100000 in
/-- C2 counterexample: with a reward address that fails address validation,
`minePendingTransactions` throws from the reward-transaction constructor and
appends nothing — the claim's unconditional "appends exactly one block for
every reward address" fails. -/
theorem minePendingTransactions_invalid_address_counterexample :
    (bc0.minePendingTransactions "X" "i1" 5 6).1 = some "Invalid recipient address" ∧
    (bc0.minePendingTransactions "X" "i1" 5 6).2 = bc0 := by
  decide

/-- C4 (amended): immediately after construction the stored hash is the
content hash of the four fields index, timestamp, transactions and
previousHash — the nonce is still unassigned when the constructor computes
the hash, so the serialization omits it — and whenever mining returns, the
block is either untouched or carries the recomputed five-field content hash
at its final nonce. -/
theorem block_hash_lifecycle :
    (∀ (ix ts : Nat) (txs : List Transaction) (ph : String),
        (Block.create ix txs ph ts).nonce = 0 ∧
        (Block.create ix txs ph ts).hash = calcBlockHash ix ts txs ph none) ∧
    (∀ (d : Nat) (b b' : Block), b.mineBlock d = .ok b' →
        b' = b ∨ b'.hash = b'.calculateHash) :=
  ⟨fun ix ts txs ph => ⟨rfl, rfl⟩,
   fun d b b' hE => (mineBlock_ok_spec d b b' hE).2.2.2.2.2⟩

set_option maxRecDepth 100000 in
/-- C4 counterexample: a freshly constructed block has `nonce = 0`, but its
stored hash differs from the five-field content hash `calculateHash()`
computes over the current fields. -/
theorem block_constructor_hash_counterexample :
    b1000.nonce = 0 ∧ (b1000.hash == b1000.calculateHash) = false := by
  decide

set_option maxRecDepth 100000 in
/-- C4 witness: a concrete mining run discharging the hypothesis of the
lifecycle theorem (difficulty 0 returns at once, leaving the block as is). -/
theorem block_hash_lifecycle_witness :
    b42.mineBlock 0 = .ok b42 ∧ (b42 = b42 ∨ b42.hash = b42.calculateHash) := by
  have h : b42.mineBlock 0 = .ok b42 := by decide
  exact ⟨h, block_hash_lifecycle.2 0 b42 b42 h⟩

/-- C7 (amended): a normal `mineBlock(d)` return has at least `d` leading
`'0'` hex characters in the stored hash, and the hash is the five-field
recomputation unless the loop body never ran (the block is returned
untouched, its hash the construction-time one); the only throw is the
nonce-overflow `'Mining timeout'` error, so mining never fails silently. -/
theorem mineBlock_postcondition :
    (∀ (d : Nat) (b b' : Block), b.mineBlock d = .ok b' →
        b'.hash.data.take d = List.replicate d '0' ∧
        (b' = b ∨ b'.hash = b'.calculateHash)) ∧
    (∀ (d : Nat) (b : Block),
        (∃ b', b.mineBlock d = .ok b') ∨
        b.mineBlock d = .error "Mining timeout - nonce exceeded maximum value") := by
  constructor
  · intro d b b' hE
    have hs := mineBlock_ok_spec d b b' hE
    refine ⟨?_, hs.2.2.2.2.2⟩
    have hm := hs.1
    simpa [hashMeetsDifficulty] using hm
  · exact mineBlock_total

set_option maxRecDepth 100000 in
/-- C7 counterexample: a block whose construction-time hash already starts
with `'0'` is returned by `mineBlock(1)` without an iteration, so its stored
hash does not equal the recomputation over its current fields (the stored
hash was computed before the nonce existed). -/
theorem mineBlock_stale_hash_counterexample :
    b1007.mineBlock 1 = .ok b1007 ∧
    b1007.hash.data.take 1 = List.replicate 1 '0' ∧
    (b1007.hash == b1007.calculateHash) = false := by
  decide

set_option maxRecDepth 100000 in
/-- C7 witness: the postcondition instantiated at a concrete difficulty-1
mining run. -/
theorem mineBlock_postcondition_witness :
    b1007.mineBlock 1 = .ok b1007 ∧
    (b1007.hash.data.take 1 = List.replicate 1 '0' ∧
     (b1007 = b1007 ∨ b1007.hash = b1007.calculateHash)) := by
  have h : b1007.mineBlock 1 = .ok b1007 := by decide
  exact ⟨h, mineBlock_postcondition.1 1 b1007 b1007 h⟩

/-- C6: `addTransaction(tx)` succeeds — appending `tx` as the last pool
entry — exactly when both addresses are truthy, the signature is truthy
(`isValid()` throws on an unsigned non-mint transaction and never returns
`false`), the amount is positive, and the sender's `getBalance` is at least
the amount; on any failure the state, in particular the pool, is unchanged. -/
theorem addTransaction_policy (bc : Blockchain) (tx : Transaction) :
    ((bc.addTransaction tx).1 = none ↔
      (truthyOptStr tx.fromAddress = true ∧ truthyStr tx.toAddress = true ∧
       truthyOptStr tx.signature = true ∧ ratLe tx.amount 0 = false ∧
       ratLt (bc.getBalance (tx.fromAddress.getD "")) tx.amount = false)) ∧
    ((bc.addTransaction tx).2 =
      if (bc.addTransaction tx).1 = none then
        { bc with pendingTransactions := bc.pendingTransactions ++ [tx] }
      else bc) := by
  by_cases hf : truthyOptStr tx.fromAddress = true
  · by_cases ht : truthyStr tx.toAddress = true
    · have hfo : ¬(tx.fromAddress = none) := truthyOptStr_ne_none hf
      by_cases hs : truthyOptStr tx.signature = true
      · by_cases ha : ratLe tx.amount 0 = true
        · simp [Blockchain.addTransaction, Transaction.isValid, hf, ht, hfo, hs, ha]
        · by_cases hb : ratLt (bc.getBalance (tx.fromAddress.getD "")) tx.amount = true
          · simp [Blockchain.addTransaction, Transaction.isValid, hf, ht, hfo, hs, ha, hb]
          · simp [Blockchain.addTransaction, Transaction.isValid, hf, ht, hfo, hs, ha, hb]
      · simp [Blockchain.addTransaction, Transaction.isValid, hf, ht, hfo, hs]
    · simp [Blockchain.addTransaction, hf, ht]
  · simp [Blockchain.addTransaction, hf]

set_option maxRecDepth 100000 in
/-- C1 (code bug): on the canonical genesis-only ledger state, the chain
validity check holds only at the very `Date.now()` millisecond the genesis
was created — `isChainValid` stringify-compares `chain[0]` against a genesis
rebuilt with the *current* timestamp, so one millisecond later the same
untampered ledger is reported invalid. -/
theorem isChainValid_genesis_recreation_bug :
    (Blockchain.new.initInMemory 1000).isChainValid 1000 = .ok true ∧
    (Blockchain.new.initInMemory 1000).isChainValid 1001 = .ok false := by
  decide

set_option maxRecDepth 100000 in
/-- C10 counterexample: Scenario A with the reward address of the
specification kept verbatim — `"Kaddr1"` has length 6, so it fails the
51-character address format check, the mining call throws, the chain stays
at length 1 and the balance stays 0. -/
theorem minePendingTransactions_kaddr1_rejected :
    (bc0.minePendingTransactions "Kaddr1" "r1" 1001 1003).1 =
      some "Invalid recipient address" ∧
    (bc0.minePendingTransactions "Kaddr1" "r1" 1001 1003).2 = bc0 ∧
    (bc0.minePendingTransactions "Kaddr1" "r1" 1001 1003).2.chain.length = 1 ∧
    (bc0.minePendingTransactions "Kaddr1" "r1" 1001 1003).2.getBalance "Kaddr1" = 0 := by
  decide

set_option maxRecDepth 100000 in
set_option maxHeartbeats 2000000 in
/-- C10 (amended): Scenario A with a format-valid reward address — one
mining call on the genesis-only ledger with difficulty 1 and reward 10
succeeds, the chain reaches length 2, and the reward address' balance is
10. -/
theorem minePendingTransactions_scenarioA_amended :
    (bc0.minePendingTransactions addrA "r1" 1001 1003).1 = none ∧
    (bc0.minePendingTransactions addrA "r1" 1001 1003).2.chain.length = 2 ∧
    (bc0.minePendingTransactions addrA "r1" 1001 1003).2.getBalance addrA = 10 := by
  decide

set_option maxRecDepth 100000 in
set_option maxHeartbeats 2000000 in
/-- C2 witness: the appended-block specification instantiated at the
concrete successful Scenario-A mining run. -/
theorem minePendingTransactions_appends_witness :
    (bc0.minePendingTransactions addrA "r1" 1001 1003).1 = none ∧
    (∃ tip mined,
      bc0.chain.getLast? = some tip ∧
      (bc0.minePendingTransactions addrA "r1" 1001 1003).2.chain =
        bc0.chain ++ [mined] ∧
      mined.previousHash = tip.hash ∧
      mined.transactions =
        bc0.pendingTransactions.take bc0.maxTransactionsPerBlock ++
          [⟨"r1", none, addrA, jsRound2 bc0.miningReward, 1001, "\x7b\x7d", none⟩] ∧
      (bc0.minePendingTransactions addrA "r1" 1001 1003).2.pendingTransactions =
        bc0.pendingTransactions.drop bc0.maxTransactionsPerBlock) := by
  have h : (bc0.minePendingTransactions addrA "r1" 1001 1003).1 = none := by decide
  exact ⟨h, minePendingTransactions_appends bc0 addrA "r1" 1001 1003 h⟩

end KetaChain
